import Mathlib

/-!
Verification of the link-annotation module of the `printpdf` repository
(`src/link_annotation.rs`) against its natural-language specification.

The Rust module is shallowly embedded below.  Conventions:
  * `f32` values are carried as rationals (`ℚ`); the module never performs
    arithmetic on them, it only injects them into the output object model,
    so any carrier with decidable equality is faithful.
  * Rust panics (`expect`, index-panic on a missing key) are modelled as
    `Option.none` results: a panicking path produces no output object.
  * `lopdf::Object` / `lopdf::Dictionary` (the external object model of
    §6 of the spec: name, real, string, array, dictionary, reference,
    null) are embedded as the inductive `Object` below; a `Dictionary`
    is an insertion-ordered association list and `set` replaces the value
    in place when the key is present, otherwise appends.
  * `HashMap` values are embedded as association lists holding the map's
    contents; since a Rust `std` HashMap's iteration order is unspecified,
    iteration is quantified over all permutations of the contents.
  * The Rust names `LinkAnnotation` / `add_link_annotation` are shortened
    to `LinkAnnot` / `add_link_annot`; all other source names are kept.
-/

/-- String format marker of a string object (`lopdf::StringFormat`). -/
inductive StringFormat where
  | Literal
  | Hexadecimal
deriving DecidableEq, Repr

/-- The low-level object model this module emits into (`lopdf::Object`,
specified at its interface boundary in §6 of the spec): tagged values —
name, real number, byte string, array, dictionary, indirect reference
(object number + generation pair) and the null marker.  A dictionary is an
insertion-ordered list of key/value pairs with unique keys. -/
inductive Object where
  | Null : Object
  | Real : ℚ → Object
  | Name : String → Object
  | String : String → StringFormat → Object
  | Reference : Nat × Nat → Object
  | Array : List Object → Object
  | Dictionary : List (String × Object) → Object

/-- Model of `lopdf::Dictionary::set`: replace the value in place when the key is
already present, otherwise append the pair at the end. -/
def dictSet (d : List (String × Object)) (k : String) (v : Object) :
    List (String × Object) :=
  match d with
  | [] => [(k, v)]
  | (k', v') :: rest =>
    if k' = k then (k, v) :: rest else (k', v') :: dictSet rest k v

/-- Lookup in an association list (models `HashMap::get` and the key-index
operator on a dictionary/map). -/
def assocLookup (k : String) : List (String × α) → Option α
  | [] => none
  | (k', v) :: rest => if k' = k then some v else assocLookup k rest

/-- Lookup with a `Nat` key (models `HashMap<usize, _>::get`). -/
def assocLookupNat (k : Nat) : List (Nat × α) → Option α
  | [] => none
  | (k', v) :: rest => if k' = k then some v else assocLookupNat k rest

/-- Logical page index (`PdfPageIndex`, a newtype over `usize`). -/
abbrev PdfPageIndex := Nat

/-- Modelled from the spec: the repository's rectangle type (`Rect`, not
under `src/`) — two corner points, lower-left and upper-right, each a pair
of real coordinates in document user space (§3); each coordinate converts
into the object model as a real number. -/
structure Point where
  x : ℚ
  y : ℚ
deriving DecidableEq, Repr

/-- Modelled from the spec: rectangle of two corner points (§3). -/
structure Rect where
  ll : Point
  ur : Point
deriving DecidableEq, Repr

/-- Model of `DashPhase { dash_array: Vec<f32>, phase: f32 }`. -/
structure DashPhase where
  dash_array : List ℚ
  phase : ℚ
deriving DecidableEq, Repr

/-- Model of `BorderArray`: `Solid([f32; 3])` or `Dashed([f32; 3], DashPhase)`. -/
inductive BorderArray where
  | Solid : ℚ → ℚ → ℚ → BorderArray
  | Dashed : ℚ → ℚ → ℚ → DashPhase → BorderArray
deriving DecidableEq, Repr

/-- Model of `Default for BorderArray`: solid `[0.0, 0.0, 1.0]`. -/
def BorderArray.default : BorderArray := .Solid 0 0 1

/-- Model of `impl Into<Object> for BorderArray`. -/
def BorderArray.intoObject : BorderArray → Object
  | .Solid a0 a1 a2 => .Array [.Real a0, .Real a1, .Real a2]
  | .Dashed a0 a1 a2 phase =>
    .Array [.Real a0, .Real a1, .Real a2, .Real phase.phase]

/-- Model of `impl Into<Object> for DashPhase` (standalone encoding: array of the
dash array plus the phase). -/
def DashPhase.intoObject (self : DashPhase) : Object :=
  .Array [.Array (self.dash_array.map .Real), .Real self.phase]

/-- Model of `ColorArray`: Transparent / Gray / RGB / CMYK. -/
inductive ColorArray where
  | Transparent : ColorArray
  | Gray : ℚ → ColorArray
  | RGB : ℚ → ℚ → ℚ → ColorArray
  | CMYK : ℚ → ℚ → ℚ → ℚ → ColorArray
deriving DecidableEq, Repr

/-- Model of `Default for ColorArray`: RGB `[0.0, 1.0, 1.0]`. -/
def ColorArray.default : ColorArray := .RGB 0 1 1

/-- Model of `impl Into<Object> for ColorArray`. -/
def ColorArray.intoObject : ColorArray → Object
  | .Transparent => .Array []
  | .Gray a0 => .Array [.Real a0]
  | .RGB a0 a1 a2 => .Array [.Real a0, .Real a1, .Real a2]
  | .CMYK a0 a1 a2 a3 => .Array [.Real a0, .Real a1, .Real a2, .Real a3]

/-- Model of `HighlightingMode`: None / Invert / Outline / Push. -/
inductive HighlightingMode where
  | None
  | Invert
  | Outline
  | Push
deriving DecidableEq, Repr

/-- Model of `Default for HighlightingMode`: Invert. -/
def HighlightingMode.default : HighlightingMode := .Invert

/-- Model of `impl Into<Object> for HighlightingMode`. -/
def HighlightingMode.intoObject : HighlightingMode → Object
  | .None => .Name ("N")
  | .Invert => .Name ("I")
  | .Outline => .Name ("O")
  | .Push => .Name ("P")

/-- Model of `Destination`: currently the single `XYZ` variant, holding a logical
page index and optional left / top / zoom viewer parameters. -/
inductive Destination where
  | XYZ : PdfPageIndex → Option ℚ → Option ℚ → Option ℚ → Destination
deriving DecidableEq, Repr

/-- Model of `Actions`: `GoTo(Destination)` or `URI(String)`. -/
inductive Actions where
  | GoTo : Destination → Actions
  | URI : String → Actions
deriving DecidableEq, Repr

/-- Model of `AnnotationContext`: the resolution context borrowed for one encode
pass — a mapping from logical page index to the page's object identity
(object number, generation number), embedded as its contents list. -/
structure AnnotationContext where
  page_id_to_obj : List (Nat × (Nat × Nat))
deriving DecidableEq, Repr

/-- Model of `left.map(Object::Real).unwrap_or(Object::Null)`. -/
def optRealToObject (o : Option ℚ) : Object :=
  (o.map Object.Real).getD Object.Null

/-- Model of `Actions::into_object`.  The `expect` on an unresolvable page index is
a panic, modelled as `none` (the panicking path emits no object). -/
def Actions.into_object (self : Actions) (ctx : AnnotationContext) :
    Option Object :=
  match self with
  | .GoTo dest =>
    match dest with
    | .XYZ page left top zoom =>
      match assocLookupNat page ctx.page_id_to_obj with
      | none => none
      | some r =>
        some (.Dictionary (dictSet (dictSet [] ("S") (.Name ("GoTo"))) ("D")
          (.Array [.Reference r, .Name ("XYZ"), optRealToObject left,
                   optRealToObject top, optRealToObject zoom])))
  | .URI uri =>
    some (.Dictionary (dictSet (dictSet [] ("S") (.Name ("URI"))) ("URI")
      (.String uri .Literal)))

/-- Model of `LinkAnnotation` (shortened to `LinkAnnot`): rectangle, border, color,
action, highlighting mode. -/
structure LinkAnnot where
  rect : Rect
  border : BorderArray
  c : ColorArray
  a : Actions
  h : HighlightingMode
deriving DecidableEq, Repr

/-- Model of `LinkAnnotation::new`: optional border / color / highlighting mode
default to the types' defaults. -/
def LinkAnnot.new (rect : Rect) (border : Option BorderArray)
    (c : Option ColorArray) (a : Actions) (h : Option HighlightingMode) :
    LinkAnnot :=
  { rect := rect
    border := border.getD BorderArray.default
    c := c.getD ColorArray.default
    a := a
    h := h.getD HighlightingMode.default }

/-- Model of `LinkAnnotation::into_object`: builds the annotation dictionary; a
panic inside the action's encoding aborts with no output (`none`). -/
def LinkAnnot.into_object (self : LinkAnnot) (ctx : AnnotationContext) :
    Option Object :=
  match Actions.into_object self.a ctx with
  | none => none
  | some aObj =>
    let d0 := dictSet [] ("Type") (.Name ("Annot"))
    let d1 := dictSet d0 ("Subtype") (.Name ("Link"))
    let d2 := dictSet d1 ("Rect")
      (.Array [.Real self.rect.ll.x, .Real self.rect.ll.y,
               .Real self.rect.ur.x, .Real self.rect.ur.y])
    let d3 := dictSet d2 ("A") aObj
    let d4 := dictSet d3 ("Border") (BorderArray.intoObject self.border)
    let d5 := dictSet d4 ("C") (ColorArray.intoObject self.c)
    let d6 := dictSet d5 ("H") (HighlightingMode.intoObject self.h)
    some (.Dictionary d6)

/-- Fuel-driven digit loop (structural recursion so that concrete values
reduce in the kernel); with `n < fuel` it extracts all base-10 digits of
`n`, least significant first. -/
def digitsAux (fuel n : Nat) : List Nat :=
  match fuel with
  | 0 => []
  | fuel + 1 => if n < 10 then [n] else (n % 10) :: digitsAux fuel (n / 10)

/-- Little-endian decimal digits of `n` (model of the digit loop inside
Rust's `format!` / `Display` for `usize`); `[n]` when `n < 10`, covering 0. -/
def toDigitsRev (n : Nat) : List Nat := digitsAux (n + 1) n

/-- Inverse of the digit decomposition, used to prove it injective. -/
def ofDigitsRev : List Nat → Nat
  | [] => 0
  | d :: ds => d + 10 * ofDigitsRev ds

/-- Decimal digit to its ASCII character. -/
def digitChar (d : Nat) : Char := Char.ofNat (48 + d)

/-- Decimal rendering of a natural number (model of Rust's
`format!("{index}")` for `usize`: standard base-10, no sign, no padding). -/
def natRepr (n : Nat) : String :=
  String.mk ((toDigitsRev n).reverse.map digitChar)

/-- Model of `LinkAnnotationRef`: a named reference handle. -/
structure LinkAnnotationRef where
  name : String
deriving DecidableEq, Repr

/-- Model of `LinkAnnotationRef::new`: the handle named `"PT" ++ index` in decimal. -/
def LinkAnnotationRef.new (index : Nat) : LinkAnnotationRef :=
  { name := "PT" ++ natRepr index }

/-- Model of `LinkAnnotationList`: the registry, a `HashMap<String, LinkAnnotation>`
embedded as its contents association list. -/
structure LinkAnnotationList where
  link_annotations : List (String × LinkAnnot)
deriving DecidableEq, Repr

/-- Model of `LinkAnnotationList::new` (also `Default`): the empty registry. -/
def LinkAnnotationList.new : LinkAnnotationList :=
  { link_annotations := [] }

/-- Model of `HashMap::insert`: replace the value when the key is present, otherwise
add the pair; the contents list keeps one entry per distinct key, so its
length models `HashMap::len`. -/
def hashMapInsert (k : String) (v : α) :
    List (String × α) → List (String × α)
  | [] => [(k, v)]
  | (k', v') :: rest =>
    if k' = k then (k, v) :: rest else (k', v') :: hashMapInsert k v rest

/-- Model of `LinkAnnotationList::add_link_annotation` (shortened to
`add_link_annot`): issue the handle `PT<len>` for the current count and
store the annotation under it; returns the handle and (since the Rust
method mutates `self`) the updated registry. -/
def LinkAnnotationList.add_link_annot (self : LinkAnnotationList)
    (link_annot : LinkAnnot) : LinkAnnotationRef × LinkAnnotationList :=
  let len := self.link_annotations.length
  let r := LinkAnnotationRef.new len
  (r, { link_annotations := hashMapInsert r.name link_annot self.link_annotations })

/-- Repeated registration: register each annotation of `as` in order,
collecting the issued handle names and the final registry. -/
def addAll (self : LinkAnnotationList) :
    List LinkAnnot → List String × LinkAnnotationList
  | [] => ([], self)
  | a :: rest =>
    let p := self.add_link_annot a
    let q := addAll p.2 rest
    (p.1.name :: q.1, q.2)

/-- Modelled from the spec: `encode_all(context)` (§4.4; the operation is
not under `src/` — only its building blocks, the registry's `IntoIterator`
and `LinkAnnotation::into_object`, are).  For each stored annotation of the
iteration sequence, invoke the annotation encoder; the first failure aborts
the whole batch with no partial result.  The iteration sequence itself is
supplied by the `HashMap` iterator, whose order is unspecified — theorems
below quantify over all permutations of the registry's contents. -/
def encodeAll (xs : List (String × LinkAnnot)) (ctx : AnnotationContext) :
    Option (List (String × Object)) :=
  match xs with
  | [] => some []
  | (n, a) :: rest =>
    match LinkAnnot.into_object a ctx with
    | none => none
    | some o =>
      match encodeAll rest ctx with
      | none => none
      | some ys => some ((n, o) :: ys)

/-- Model of `impl From<LinkAnnotationList> for Dictionary` (the legacy
collection-level flattening): an empty registry gives the empty dictionary;
otherwise Type / Subtype plus the rectangle of the annotation stored under
`"PT0"`.  The panicking index `["PT0"]` on a missing key is modelled as
`none`. -/
def dictionaryFromList (l : LinkAnnotationList) :
    Option (List (String × Object)) :=
  if l.link_annotations.isEmpty then some [] else
  match assocLookup ("PT0") l.link_annotations with
  | none => none
  | some a0 =>
    some (dictSet (dictSet (dictSet [] ("Type") (.Name ("Annot")))
      ("Subtype") (.Name ("Link"))) ("Rect")
      (.Array [.Real a0.rect.ll.x, .Real a0.rect.ll.y,
               .Real a0.rect.ur.x, .Real a0.rect.ur.y]))

/-- Registry contents after registering a list of annotations starting at
index `k`: the entry for the `i`-th annotation is keyed `PT(k+i)`. -/
def contentsFrom (k : Nat) : List LinkAnnot → List (String × LinkAnnot)
  | [] => []
  | a :: rest => ("PT" ++ natRepr k, a) :: contentsFrom (k + 1) rest

/-- Handle names issued for a list of annotations starting at index `k`. -/
def namesFrom (k : Nat) : List LinkAnnot → List String
  | [] => []
  | _ :: rest => ("PT" ++ natRepr k) :: namesFrom (k + 1) rest

/-- Sample resolution context mapping page 0 to object (5, 0) (the §8
scenario of the spec). -/
def sampleCtx : AnnotationContext := { page_id_to_obj := [(0, (5, 0))] }

/-- Sample annotation of the §8 scenario: rectangle (0,0)-(100,50), all
visual attributes defaulted, `GoTo(XYZ, page 0, top 792)` action. -/
def sampleLa : LinkAnnot :=
  LinkAnnot.new { ll := { x := 0, y := 0 }, ur := { x := 100, y := 50 } }
    none none (.GoTo (.XYZ 0 none (some 792) none)) none

/-- A context with no page entries (URI actions never consult it). -/
def emptyCtx : AnnotationContext := { page_id_to_obj := [] }

/-- Sample annotation with an external URI action. -/
def la0 : LinkAnnot :=
  LinkAnnot.new { ll := { x := 0, y := 0 }, ur := { x := 1, y := 1 } }
    none none (.URI ("a")) none

/-- A second, distinct sample annotation with an external URI action. -/
def la1 : LinkAnnot :=
  LinkAnnot.new { ll := { x := 2, y := 2 }, ur := { x := 3, y := 3 } }
    none none (.URI ("b")) none

/-- With enough fuel the digit loop is inverted by `ofDigitsRev` and
produces only digits below 10. -/
theorem digitsAux_spec (fuel : Nat) : ∀ n, n < fuel →
    ofDigitsRev (digitsAux fuel n) = n ∧ ∀ d ∈ digitsAux fuel n, d < 10 := by
  induction fuel with
  | zero => intro n h; exact absurd h (Nat.not_lt_zero n)
  | succ fuel ih =>
    intro n h
    by_cases h10 : n < 10
    · refine ⟨?_, ?_⟩ <;> simp [digitsAux, h10, ofDigitsRev]
    · have hdiv : n / 10 < fuel := by
        have h2 : n / 10 < n := Nat.div_lt_self (by omega) (by omega)
        omega
      obtain ⟨ih1, ih2⟩ := ih (n / 10) hdiv
      refine ⟨?_, ?_⟩
      · simp only [digitsAux, if_neg h10, ofDigitsRev, ih1]
        omega
      · intro d hd
        simp only [digitsAux, if_neg h10, List.mem_cons] at hd
        rcases hd with rfl | hd
        · omega
        · exact ih2 d hd

/-- Inversion: `ofDigitsRev` inverts the decimal digit decomposition. -/
theorem ofDigitsRev_toDigitsRev (n : Nat) : ofDigitsRev (toDigitsRev n) = n :=
  (digitsAux_spec (n + 1) n (Nat.lt_succ_self n)).1

/-- Every produced decimal digit is below 10. -/
theorem toDigitsRev_lt_ten (n : Nat) : ∀ d ∈ toDigitsRev n, d < 10 :=
  (digitsAux_spec (n + 1) n (Nat.lt_succ_self n)).2

/-- The decimal digit decomposition is injective. -/
theorem toDigitsRev_inj (a b : Nat) (h : toDigitsRev a = toDigitsRev b) :
    a = b := by
  have h2 := congrArg ofDigitsRev h
  rwa [ofDigitsRev_toDigitsRev, ofDigitsRev_toDigitsRev] at h2

/-- Injectivity: `digitChar` is injective on decimal digits. -/
theorem digitChar_inj (a b : Nat) (ha : a < 10) (hb : b < 10)
    (h : digitChar a = digitChar b) : a = b := by
  interval_cases a <;> interval_cases b <;> revert h <;> decide

/-- Mapping `digitChar` over digit lists is injective. -/
theorem map_digitChar_inj : ∀ (l1 l2 : List Nat), (∀ d ∈ l1, d < 10) →
    (∀ d ∈ l2, d < 10) → l1.map digitChar = l2.map digitChar → l1 = l2 := by
  intro l1
  induction l1 with
  | nil =>
    intro l2 _ _ h
    cases l2 with
    | nil => rfl
    | cons b bs => simp at h
  | cons a as ih =>
    intro l2 h1 h2 h
    cases l2 with
    | nil => simp at h
    | cons b bs =>
      simp only [List.map_cons, List.cons.injEq] at h
      have hab : a = b :=
        digitChar_inj a b (h1 a (by simp)) (h2 b (by simp)) h.1
      subst hab
      rw [ih bs (fun d hd => h1 d (by simp [hd]))
        (fun d hd => h2 d (by simp [hd])) h.2]

/-- The decimal rendering of a natural number is injective. -/
theorem natRepr_inj (a b : Nat) (h : natRepr a = natRepr b) : a = b := by
  have hd : (toDigitsRev a).reverse.map digitChar =
      (toDigitsRev b).reverse.map digitChar := congrArg String.data h
  have hrev : (toDigitsRev a).reverse = (toDigitsRev b).reverse :=
    map_digitChar_inj _ _
      (fun d hd' => toDigitsRev_lt_ten a d (List.mem_reverse.mp hd'))
      (fun d hd' => toDigitsRev_lt_ten b d (List.mem_reverse.mp hd')) hd
  exact toDigitsRev_inj a b (List.reverse_injective hrev)

/-- The handle names `PT<n>` are pairwise distinct: the name determines the
index. -/
theorem ptName_inj (a b : Nat) (h : "PT" ++ natRepr a = "PT" ++ natRepr b) :
    a = b := by
  have hd := congrArg String.data h
  rw [String.data_append, String.data_append] at hd
  exact natRepr_inj a b (String.ext (List.append_cancel_left hd))

/-- Shape: `contentsFrom` has one entry per annotation. -/
theorem length_contentsFrom : ∀ (as : List LinkAnnot) (k : Nat),
    (contentsFrom k as).length = as.length := by
  intro as
  induction as with
  | nil => intro k; rfl
  | cons a rest ih => intro k; simp [contentsFrom, ih]

/-- Keys past the stored index range are absent from the contents. -/
theorem lookup_contentsFrom_ge : ∀ (as : List LinkAnnot) (k j : Nat),
    k + as.length ≤ j →
    assocLookup ("PT" ++ natRepr j) (contentsFrom k as) = none := by
  intro as
  induction as with
  | nil => intro k j _; rfl
  | cons a rest ih =>
    intro k j hj
    rw [List.length_cons] at hj
    have hne : ("PT" ++ natRepr k) ≠ ("PT" ++ natRepr j) :=
      fun he => by have := ptName_inj k j he; omega
    simp only [contentsFrom, assocLookup, if_neg hne]
    exact ih (k + 1) j (by omega)

/-- Looking up the `i`-th issued key retrieves the `i`-th annotation. -/
theorem lookup_contentsFrom_at : ∀ (as : List LinkAnnot) (k i : Nat)
    (h : i < as.length),
    assocLookup ("PT" ++ natRepr (k + i)) (contentsFrom k as) =
      some (as.get ⟨i, h⟩) := by
  intro as
  induction as with
  | nil => intro k i h; exact absurd h (by simp)
  | cons a rest ih =>
    intro k i h
    cases i with
    | zero => simp [contentsFrom, assocLookup]
    | succ i =>
      have hne : ("PT" ++ natRepr k) ≠ ("PT" ++ natRepr (k + (i + 1))) :=
        fun he => by have := ptName_inj k (k + (i + 1)) he; omega
      simp only [contentsFrom, assocLookup, if_neg hne]
      have h' : i < rest.length := by
        rw [List.length_cons] at h
        omega
      have hre := ih (k + 1) i h'
      rw [show k + 1 + i = k + (i + 1) by omega] at hre
      rw [hre]
      rfl

/-- Inserting a fresh key appends the pair at the end of the contents. -/
theorem hashMapInsert_fresh : ∀ (l : List (String × LinkAnnot)) (k : String)
    (v : LinkAnnot), assocLookup k l = none →
    hashMapInsert k v l = l ++ [(k, v)] := by
  intro l
  induction l with
  | nil => intro k v _; rfl
  | cons p rest ih =>
    intro k v h
    obtain ⟨k', v'⟩ := p
    by_cases he : k' = k
    · subst he; simp [assocLookup] at h
    · simp only [hashMapInsert, if_neg he, List.cons_append]
      rw [ih k v (by simpa [assocLookup, he] using h)]

/-- Appending one annotation extends the contents with the next key. -/
theorem contentsFrom_snoc : ∀ (as : List LinkAnnot) (k : Nat) (a : LinkAnnot),
    contentsFrom k (as ++ [a]) =
      contentsFrom k as ++ [("PT" ++ natRepr (k + as.length), a)] := by
  intro as
  induction as with
  | nil => intro k a; simp [contentsFrom]
  | cons b rest ih =>
    intro k a
    show contentsFrom k (b :: (rest ++ [a])) = _
    simp only [contentsFrom, List.cons_append]
    rw [ih (k + 1) a, List.length_cons,
      show k + 1 + rest.length = k + (rest.length + 1) by omega]

/-- Registering a list of annotations on a registry already holding the
entries for `pre` issues the next sequential handles and stores each
annotation under its own handle. -/
theorem addAll_spec : ∀ (as pre : List LinkAnnot),
    (addAll { link_annotations := contentsFrom 0 pre } as).1 =
        namesFrom pre.length as ∧
    (addAll { link_annotations := contentsFrom 0 pre } as).2 =
        { link_annotations := contentsFrom 0 (pre ++ as) } := by
  intro as
  induction as with
  | nil => intro pre; exact ⟨rfl, by simp [addAll]⟩
  | cons a rest ih =>
    intro pre
    have hlen : (contentsFrom 0 pre).length = pre.length :=
      length_contentsFrom pre 0
    have hfresh : assocLookup ("PT" ++ natRepr pre.length)
        (contentsFrom 0 pre) = none :=
      lookup_contentsFrom_ge pre 0 pre.length (by omega)
    have hins : hashMapInsert ("PT" ++ natRepr pre.length) a
        (contentsFrom 0 pre) = contentsFrom 0 (pre ++ [a]) := by
      rw [hashMapInsert_fresh _ _ _ hfresh, contentsFrom_snoc]
      simp
    have hstep : ({ link_annotations := contentsFrom 0 pre } :
        LinkAnnotationList).add_link_annot a =
        (LinkAnnotationRef.new pre.length,
         { link_annotations := contentsFrom 0 (pre ++ [a]) }) := by
      simp only [LinkAnnotationList.add_link_annot, hlen,
        LinkAnnotationRef.new, hins]
    obtain ⟨ih1, ih2⟩ := ih (pre ++ [a])
    refine ⟨?_, ?_⟩
    · simp only [addAll, hstep, ih1, namesFrom, List.length_append,
        List.length_cons, List.length_nil, LinkAnnotationRef.new]
    · simp only [addAll, hstep, ih2, List.append_assoc, List.cons_append,
        List.nil_append]

/-- The issued handle names are the sequential `PT` names. -/
theorem namesFrom_eq : ∀ (as : List LinkAnnot) (k : Nat),
    namesFrom k as =
      (List.range as.length).map (fun i => "PT" ++ natRepr (k + i)) := by
  intro as
  induction as with
  | nil => intro k; rfl
  | cons a rest ih =>
    intro k
    rw [List.length_cons, List.range_succ_eq_map]
    simp only [namesFrom, List.map_cons, List.map_map, Nat.add_zero]
    rw [ih (k + 1)]
    refine congrArg (fun l => _ :: l) ?_
    refine List.map_congr_left ?_
    intro i _
    simp only [Function.comp_apply]
    rw [show k + 1 + i = k + (i + 1) by omega]

/-- A registry built from a fresh one by registering `as` holds exactly the
sequentially keyed entries of `as`. -/
theorem registry_contents (as : List LinkAnnot) :
    (addAll LinkAnnotationList.new as).2 =
      { link_annotations := contentsFrom 0 as } :=
  (addAll_spec as []).2

/-- The handle list issued for `as` on a fresh registry. -/
theorem registry_names (as : List LinkAnnot) :
    (addAll LinkAnnotationList.new as).1 =
      (List.range as.length).map (fun i => "PT" ++ natRepr i) := by
  have h2 : (addAll LinkAnnotationList.new as).1 = namesFrom 0 as :=
    (addAll_spec as []).1
  rw [h2, namesFrom_eq]
  simp

/-- One failing annotation encode makes the whole batch fail. -/
theorem encodeAll_none_of_mem : ∀ (xs : List (String × LinkAnnot))
    (ctx : AnnotationContext) (p : String × LinkAnnot), p ∈ xs →
    LinkAnnot.into_object p.2 ctx = none → encodeAll xs ctx = none := by
  intro xs ctx
  induction xs with
  | nil => intro p hp; exact absurd hp (by simp)
  | cons q rest ih =>
    intro p hp hf
    obtain ⟨n, a⟩ := q
    rcases List.mem_cons.mp hp with rfl | hp
    · simp only [encodeAll, hf]
    · show (match LinkAnnot.into_object a ctx with
        | none => none
        | some o => match encodeAll rest ctx with
          | none => none
          | some ys => some ((n, o) :: ys)) = none
      rw [ih p hp hf]
      cases LinkAnnot.into_object a ctx <;> rfl

/-- When every annotation encodes, the batch succeeds and pairs each handle
with its own annotation's encoding, one entry per stored annotation. -/
theorem encodeAll_some_of_all : ∀ (xs : List (String × LinkAnnot))
    (ctx : AnnotationContext),
    (∀ p ∈ xs, (LinkAnnot.into_object p.2 ctx).isSome) →
    ∃ ys, encodeAll xs ctx = some ys ∧
      List.Forall₂ (fun p q => p.1 = q.1 ∧
        LinkAnnot.into_object p.2 ctx = some q.2) xs ys := by
  intro xs ctx
  induction xs with
  | nil => intro _; exact ⟨[], rfl, List.Forall₂.nil⟩
  | cons q rest ih =>
    intro hall
    obtain ⟨n, a⟩ := q
    obtain ⟨o, ho⟩ := Option.isSome_iff_exists.mp (hall (n, a) (by simp))
    obtain ⟨ys, hys, hrel⟩ := ih (fun p hp => hall p (by simp [hp]))
    refine ⟨(n, o) :: ys, ?_, ?_⟩
    · simp only [encodeAll, ho, hys]
    · exact List.Forall₂.cons ⟨rfl, ho⟩ hrel

/-- Claim C1: encoding a `GoTo(XYZ)` action whose page index resolves in
the context yields a dictionary with type tag `S = "GoTo"` and `D` a
5-element array `[resolved page reference, name "XYZ", left, top, zoom]`,
where each optional viewer parameter is a real number when present and the
null marker when absent — never a numeric zero substitute. -/
theorem c1_goto_xyz_resolved (page : PdfPageIndex) (left top zoom : Option ℚ)
    (ctx : AnnotationContext) (r : Nat × Nat)
    (h : assocLookupNat page ctx.page_id_to_obj = some r) :
    Actions.into_object (.GoTo (.XYZ page left top zoom)) ctx =
      some (.Dictionary [(("S"), .Name ("GoTo")),
        (("D"), .Array [.Reference r, .Name ("XYZ"), optRealToObject left,
          optRealToObject top, optRealToObject zoom])]) ∧
    optRealToObject none = Object.Null ∧
    (∀ q : ℚ, optRealToObject (some q) = Object.Real q) ∧
    (∀ q : ℚ, Object.Null ≠ Object.Real q) := by
  refine ⟨?_, rfl, fun q => rfl, fun q hq => Object.noConfusion hq⟩
  simp only [Actions.into_object, h]
  rfl

/-- Claim C1 witness: the resolvable concrete instance (page 0 mapped to
object (5, 0), only `top` present). -/
theorem c1_goto_xyz_resolved_witness :
    assocLookupNat 0 sampleCtx.page_id_to_obj = some (5, 0) ∧
    Actions.into_object (.GoTo (.XYZ 0 none (some 792) none)) sampleCtx =
      some (.Dictionary [(("S"), .Name ("GoTo")),
        (("D"), .Array [.Reference (5, 0), .Name ("XYZ"), .Null,
          .Real 792, .Null])]) := by
  have h : assocLookupNat 0 sampleCtx.page_id_to_obj = some (5, 0) := rfl
  have h2 := (c1_goto_xyz_resolved 0 none (some 792) none sampleCtx (5, 0) h).1
  exact ⟨h, h2⟩

/-- Claim C2: encoding a `GoTo(XYZ)` action fails (producing no output
object) exactly when the page index has no entry in the resolution
context; under the precondition that the page index resolves, the failure
branch is unreachable. -/
theorem c2_goto_unresolvable_fails (page : PdfPageIndex)
    (left top zoom : Option ℚ) (ctx : AnnotationContext) :
    (Actions.into_object (.GoTo (.XYZ page left top zoom)) ctx = none ↔
      assocLookupNat page ctx.page_id_to_obj = none) := by
  unfold Actions.into_object
  cases hl : assocLookupNat page ctx.page_id_to_obj <;> simp [hl]

/-- Claim C7: a solid border encodes as exactly the 3 color reals in order;
a dashed border encodes as exactly the 3 color reals followed by the dash
phase — the dash magnitude sequence never appears in this 4-element form,
although the standalone dash-phase encoding is an array of the magnitude
array plus the phase. -/
theorem c7_border_encoding (c0 c1 c2 : ℚ) (dash : DashPhase) :
    BorderArray.intoObject (.Solid c0 c1 c2) =
        .Array [.Real c0, .Real c1, .Real c2] ∧
    BorderArray.intoObject (.Dashed c0 c1 c2 dash) =
        .Array [.Real c0, .Real c1, .Real c2, .Real dash.phase] ∧
    DashPhase.intoObject dash =
        .Array [.Array (dash.dash_array.map Object.Real), .Real dash.phase] :=
  ⟨rfl, rfl, rfl⟩

/-- Claim C8: encoding a URI action yields a dictionary with type tag
`S = "URI"` and a `URI` field holding the input text as a literal
byte-string, unmodified; the resolution context is never consulted (the
result is the same for every context). -/
theorem c8_uri_encoding (uri : String) (ctx : AnnotationContext) :
    Actions.into_object (.URI uri) ctx =
      some (.Dictionary
        [(("S"), .Name ("URI")), (("URI"), .String uri .Literal)]) := rfl

/-- Claim C5: with a context that resolves the annotation's action, the
annotation encodes to a dictionary holding exactly once each of:
`Type = "Annot"`, `Subtype = "Link"`, `Rect` as the 4-element corner array
`[llx, lly, urx, ury]`, `A` as the encoded action, `Border`, `C` and `H`
as the encoded visual attributes. -/
theorem c5_link_annot_encoding (la : LinkAnnot) (ctx : AnnotationContext)
    (aObj : Object) (h : Actions.into_object la.a ctx = some aObj) :
    LinkAnnot.into_object la ctx = some (.Dictionary
      [(("Type"), .Name ("Annot")),
       (("Subtype"), .Name ("Link")),
       (("Rect"), .Array [.Real la.rect.ll.x, .Real la.rect.ll.y,
                          .Real la.rect.ur.x, .Real la.rect.ur.y]),
       (("A"), aObj),
       (("Border"), BorderArray.intoObject la.border),
       (("C"), ColorArray.intoObject la.c),
       (("H"), HighlightingMode.intoObject la.h)]) := by
  unfold LinkAnnot.into_object
  rw [h]
  rfl

/-- Claim C5 witness: the §8 scenario — rectangle (0,0)-(100,50), default
border / color / highlighting, `GoTo(XYZ page 0, top 792)`, page 0 resolved
to object (5, 0); the expected full dictionary of the spec results. -/
theorem c5_link_annot_encoding_witness :
    Actions.into_object sampleLa.a sampleCtx =
      some (.Dictionary [(("S"), .Name ("GoTo")),
        (("D"), .Array [.Reference (5, 0), .Name ("XYZ"), .Null,
          .Real 792, .Null])]) ∧
    LinkAnnot.into_object sampleLa sampleCtx = some (.Dictionary
      [(("Type"), .Name ("Annot")),
       (("Subtype"), .Name ("Link")),
       (("Rect"), .Array [.Real 0, .Real 0, .Real 100, .Real 50]),
       (("A"), .Dictionary [(("S"), .Name ("GoTo")),
         (("D"), .Array [.Reference (5, 0), .Name ("XYZ"), .Null,
           .Real 792, .Null])]),
       (("Border"), .Array [.Real 0, .Real 0, .Real 1]),
       (("C"), .Array [.Real 0, .Real 1, .Real 1]),
       (("H"), .Name ("I"))]) := by
  have h : Actions.into_object sampleLa.a sampleCtx =
      some (.Dictionary [(("S"), .Name ("GoTo")),
        (("D"), .Array [.Reference (5, 0), .Name ("XYZ"), .Null,
          .Real 792, .Null])]) := rfl
  have h2 := c5_link_annot_encoding sampleLa sampleCtx _ h
  exact ⟨h, h2⟩

/-- Claim C10: converting an empty registry through the legacy
collection-level dictionary conversion yields the completely empty
dictionary — no Type, Subtype or Rect fields at all. -/
theorem c10_empty_registry_dictionary (l : LinkAnnotationList)
    (h : l.link_annotations.isEmpty = true) :
    dictionaryFromList l = some [] := by
  unfold dictionaryFromList
  rw [h]
  rfl

/-- Claim C10 witness: the fresh registry is empty and converts to the
empty dictionary. -/
theorem c10_empty_registry_dictionary_witness :
    LinkAnnotationList.new.link_annotations.isEmpty = true ∧
    dictionaryFromList LinkAnnotationList.new = some [] :=
  ⟨rfl, c10_empty_registry_dictionary LinkAnnotationList.new rfl⟩

/-- Claim C4: registering N annotations on a fresh registry issues exactly
the handles `PT0` … `PT(N-1)` in that order, the handles are pairwise
distinct, and afterwards every issued handle maps in the registry's
storage to exactly the annotation registered with it. -/
theorem c4_register_sequential_handles (as : List LinkAnnot) :
    (addAll LinkAnnotationList.new as).1 =
        (List.range as.length).map (fun i => "PT" ++ natRepr i) ∧
    (addAll LinkAnnotationList.new as).1.Nodup ∧
    ∀ i (h : i < as.length),
      assocLookup ("PT" ++ natRepr i)
          (addAll LinkAnnotationList.new as).2.link_annotations =
        some (as.get ⟨i, h⟩) := by
  refine ⟨registry_names as, ?_, ?_⟩
  · rw [registry_names as]
    exact (List.nodup_range as.length).map (fun a b hab => ptName_inj a b hab)
  · intro i h
    rw [show (addAll LinkAnnotationList.new as).2.link_annotations =
        contentsFrom 0 as from congrArg LinkAnnotationList.link_annotations
          (registry_contents as)]
    have h2 := lookup_contentsFrom_at as 0 i h
    rwa [Nat.zero_add] at h2

/-- Claim C4 witness: registering two concrete annotations issues the
handles `PT0`, `PT1` and stores the first annotation under `PT0`. -/
theorem c4_register_sequential_handles_witness :
    (addAll LinkAnnotationList.new [la0, la1]).1 = [("PT0"), ("PT1")] ∧
    assocLookup ("PT0")
        (addAll LinkAnnotationList.new [la0, la1]).2.link_annotations =
      some la0 := by
  have h := c4_register_sequential_handles [la0, la1]
  refine ⟨by rw [h.1]; rfl, ?_⟩
  have h2 := h.2.2 0 (by decide)
  rwa [show ("PT" ++ natRepr 0) = ("PT0") from rfl] at h2

/-- Claim C6: flattening a non-empty registry through the legacy
collection-level dictionary conversion honors only the rectangle of the
first-registered annotation (handle `PT0`): the resulting dictionary's
Rect array holds its corner coordinates, regardless of how many other
annotations were registered after it. -/
theorem c6_legacy_first_rect (a : LinkAnnot) (rest : List LinkAnnot) :
    dictionaryFromList (addAll LinkAnnotationList.new (a :: rest)).2 =
      some [(("Type"), .Name ("Annot")), (("Subtype"), .Name ("Link")),
            (("Rect"), .Array [.Real a.rect.ll.x, .Real a.rect.ll.y,
                               .Real a.rect.ur.x, .Real a.rect.ur.y])] := by
  rw [registry_contents (a :: rest)]
  have hc : contentsFrom 0 (a :: rest) =
      (("PT0"), a) :: contentsFrom 1 rest := rfl
  unfold dictionaryFromList
  rw [hc]
  simp [assocLookup, dictSet]

/-- Claim C9: every non-empty registry built solely by registration calls
on a fresh registry stores an entry under the key `PT0` (the first
registered annotation), so the legacy dictionary conversion's lookup of
`PT0` never fails — its panic branch is unreachable. -/
theorem c9_pt0_present (a : LinkAnnot) (rest : List LinkAnnot) :
    assocLookup ("PT0")
        (addAll LinkAnnotationList.new (a :: rest)).2.link_annotations =
      some a ∧
    (dictionaryFromList
        (addAll LinkAnnotationList.new (a :: rest)).2).isSome := by
  have hreg := registry_contents (a :: rest)
  have hc : contentsFrom 0 (a :: rest) =
      (("PT0"), a) :: contentsFrom 1 rest := rfl
  constructor
  · rw [congrArg LinkAnnotationList.link_annotations hreg, hc]
    simp [assocLookup]
  · rw [hreg]
    unfold dictionaryFromList
    rw [hc]
    simp [assocLookup]

/-- Claim C3 counterexample: the registry stores its annotations in a hash
map whose iteration order is unspecified, so the batch encode is not
guaranteed to emit pairs in registration order.  For the registry built by
registering `la0` then `la1`, the reversed sequence is a permutation of
the stored contents (hence a possible iteration order), its batch encode
succeeds, yet the emitted handle sequence is not the registration order
`PT0, PT1`. -/
theorem c3_registration_order_counterexample :
    ([(("PT1"), la1), (("PT0"), la0)] : List (String × LinkAnnot)).Perm
        (addAll LinkAnnotationList.new [la0, la1]).2.link_annotations ∧
    (encodeAll [(("PT1"), la1), (("PT0"), la0)] emptyCtx).isSome ∧
    Option.map (fun ys => ys.map Prod.fst)
        (encodeAll [(("PT1"), la1), (("PT0"), la0)] emptyCtx) ≠
      some ((addAll LinkAnnotationList.new [la0, la1]).1) := by
  refine ⟨?_, rfl, ?_⟩
  · have hc : (addAll LinkAnnotationList.new [la0, la1]).2.link_annotations =
        [(("PT0"), la0), (("PT1"), la1)] := rfl
    rw [hc]
    exact List.Perm.swap _ _ _
  · intro hcon
    have hl : Option.map (fun ys => ys.map Prod.fst)
        (encodeAll [(("PT1"), la1), (("PT0"), la0)] emptyCtx) =
        some [("PT1"), ("PT0")] := rfl
    have hr : (addAll LinkAnnotationList.new [la0, la1]).1 =
        [("PT0"), ("PT1")] := rfl
    rw [hl, hr] at hcon
    exact absurd hcon (by decide)

/-- Claim C3 (amended): for every registry contents list and every possible
iteration sequence of it (any permutation, since hash-map iteration order
is unspecified), the batch encode emits one (handle, encoded-object) pair
per stored annotation — each handle paired with its own annotation's
encoding, in the iteration sequence's order — and if any annotation's
encode fails, the batch fails with no partial result. -/
theorem c3_encode_all_batch (l xs : List (String × LinkAnnot))
    (ctx : AnnotationContext) (hperm : xs.Perm l) :
    ((∃ p ∈ l, LinkAnnot.into_object p.2 ctx = none) →
        encodeAll xs ctx = none) ∧
    ((∀ p ∈ l, (LinkAnnot.into_object p.2 ctx).isSome) →
      ∃ ys, encodeAll xs ctx = some ys ∧
        List.Forall₂ (fun p q => p.1 = q.1 ∧
          LinkAnnot.into_object p.2 ctx = some q.2) xs ys) := by
  constructor
  · rintro ⟨p, hp, hf⟩
    exact encodeAll_none_of_mem xs ctx p (hperm.mem_iff.mpr hp) hf
  · intro hall
    exact encodeAll_some_of_all xs ctx (fun p hp => hall p (hperm.mem_iff.mp hp))

/-- Claim C3 (amended) witness: a one-entry registry contents list, in its
identity iteration order, batch-encodes successfully. -/
theorem c3_encode_all_batch_witness :
    ([(("PT0"), la0)] : List (String × LinkAnnot)).Perm [(("PT0"), la0)] ∧
    encodeAll [(("PT0"), la0)] emptyCtx ≠ none := by
  have hperm : ([(("PT0"), la0)] : List (String × LinkAnnot)).Perm
      [(("PT0"), la0)] := List.Perm.refl _
  have h := c3_encode_all_batch [(("PT0"), la0)] [(("PT0"), la0)]
    emptyCtx hperm
  refine ⟨hperm, ?_⟩
  obtain ⟨ys, hys, _⟩ := h.2 (by decide)
  simp [hys]
